import Mathlib

/-
Verification of the MBVST heuristic solver (ilp_updated.py / ilp_solver.py).

The program computes a spanning tree with few branch vertices by repeatedly
solving a MILP (cardinality, fundamental-cycle, forced-edge, and
degree/branching constraints) and, when the selected edge set is
disconnected, forcing a quota-bounded set of scored reconnection edges
into the next model.

Shallow embedding conventions:
  - vertices are `Nat`, edges are ordered pairs normalised by `sortPair`
    (the Python code uses `tuple(sorted(e))`);
  - the external CPLEX solve (`prob.solve(solver)` inside
    `resoudre_ilp_iteration`) is abstracted as an oracle
    `List Edge -> Option (List Edge)` returning the list
    `[e for e in all_edges if value(x[e]) == 1]` on optimal status and
    `none` otherwise; the constraints the model imposes on that assignment
    are embedded as the predicate `ContraintesModele`;
  - the fundamental cycle basis `nx.cycle_basis(G)` (external networkx
    call) is kept as an explicit parameter `cb`, so every theorem holds for
    whatever basis networkx produces;
  - the non-terminating `while True` loop of `resoudre_mbvst` is embedded
    as a fuel-bounded recursion `boucle`, plus the trace `etats` of the
    (forced edges, quota) state at the start of each iteration.
-/

namespace MBVST

abbrev Edge := Nat × Nat

/-- Python `tuple(sorted(e))`: normalise an undirected edge to its sorted
representative. -/
def sortPair (e : Edge) : Edge :=
  if e.1 ≤ e.2 then e else (e.2, e.1)

/-- An undirected graph as the Python code holds it: a node list and an
edge list (networkx iterates both in insertion order). -/
structure Graphe where
  nodes : List Nat
  edges : List Edge
deriving DecidableEq, Repr

/-- Degree of `v` in an edge list: number of incident edges (`i in e` on a
Python 2-tuple tests either endpoint). -/
def degreListe (edges : List Edge) (v : Nat) : Nat :=
  (edges.filter (fun e => v = e.1 ∨ v = e.2)).length

/-- `G.degree(v)` of networkx on a simple graph. -/
def Graphe.degre (G : Graphe) (v : Nat) : Nat :=
  degreListe G.edges v

/-- `all_edges = [tuple(sorted(e)) for e in G.edges()]` (line 31 of
ilp_updated.py). -/
def allEdges (G : Graphe) : List Edge :=
  G.edges.map sortPair

/-- One pass over the edge list, adding every endpoint adjacent to the
accumulated set; iterated it yields graph reachability (the semantics of
the networkx `is_connected` / `connected_components` traversal). -/
def etapeAtteinte (edges : List Edge) (acc : List Nat) : List Nat :=
  edges.foldl (fun a e =>
    let a1 := if e.1 ∈ a ∧ e.2 ∉ a then a ++ [e.2] else a
    if e.2 ∈ a1 ∧ e.1 ∉ a1 then a1 ++ [e.1] else a1) acc

/-- Iterate `etapeAtteinte`; `nodes.length` rounds reach a fixpoint. -/
def atteinte (edges : List Edge) : Nat → List Nat → List Nat
  | 0, acc => acc
  | n + 1, acc => atteinte edges n (etapeAtteinte edges acc)

/-- Connected component of `v` in the graph with the given node and edge
lists. -/
def composanteDe (nodes : List Nat) (edges : List Edge) (v : Nat) : List Nat :=
  atteinte edges nodes.length [v]

/-- Modelled from the spec: `nx.is_connected(T)` (external networkx call),
the Connectivity Checker: every node is reachable from the first one. -/
def estConnexe (nodes : List Nat) (edges : List Edge) : Bool :=
  match nodes with
  | [] => true
  | v :: _ => nodes.all (fun w => decide (w ∈ composanteDe nodes edges v))

/-- Modelled from the spec: `list(nx.connected_components(T))` (external
networkx call): components in order of first appearance in the node list. -/
def composantes (nodes : List Nat) (edges : List Edge) : List (List Nat) :=
  nodes.foldl (fun comps v =>
    if comps.any (fun c => decide (v ∈ c)) then comps
    else comps ++ [composanteDe nodes edges v]) []

/-- `next(i for i, c in enumerate(composantes) if u in c)` (lines 105-106
of ilp_updated.py). -/
def indiceComp (comps : List (List Nat)) (v : Nat) : Nat :=
  comps.findIdx (fun c => decide (v ∈ c))

/-- Modelled from the spec: `list(nx.bridges(G))` (external networkx call):
for the connected input graphs of this program, an edge is a bridge exactly
when its removal disconnects the graph. -/
def pontsDe (G : Graphe) : List Edge :=
  G.edges.filter (fun e =>
    decide (estConnexe G.nodes
      (G.edges.filter (fun f => decide (sortPair f ≠ sortPair e))) = false))

/-- Low-degree class `partitions["V01"]` of `analyser_structure`
(degree at most 2). -/
def V01 (G : Graphe) : List Nat :=
  G.nodes.filter (fun v => decide (G.degre v ≤ 2))

/-- High-degree class `partitions["V2"]` of `analyser_structure`
(degree strictly above 2); `partitions["V3"]` stays empty in the source. -/
def V2 (G : Graphe) : List Nat :=
  G.nodes.filter (fun v => decide (¬ (G.degre v ≤ 2)))

/-- `analyser_structure(G)` (lines 17-26 of ilp_updated.py): bridges plus
the degree partition. -/
def analyser_structure (G : Graphe) : List Edge × List Nat × List Nat :=
  (pontsDe G, V01 G, V2 G)

/-- Value of a binary MILP variable. -/
def bn (b : Bool) : Nat := if b then 1 else 0

/-- Edge list of one cycle of the basis (lines 46-50 of ilp_updated.py):
consecutive pairs, wrapping around, each normalised by `tuple(sorted(.))`. -/
def aretesDuCycle (cycle : List Nat) : List Edge :=
  (List.range cycle.length).map
    (fun i => sortPair (cycle.getD i 0, cycle.getD ((i + 1) % cycle.length) 0))

/-- Degree / branching constraint of vertex `i` (lines 59-66 of
ilp_updated.py), with the three-way classification of the source. -/
@[reducible] def contrainteDegre (G : Graphe) (x : Edge → Bool) (y : Nat → Bool) (i : Nat) : Prop :=
  let incidentes := (allEdges G).filter (fun e => decide (i = e.1 ∨ i = e.2))
  if i ∈ V2 G then incidentes.countP x ≤ 2 + (G.degre i - 2) * bn (y i)
  else if i ∈ V01 G then incidentes.countP x ≤ 2
  else incidentes.countP x ≤ G.degre i

/-- The constraints of the MILP built by `resoudre_ilp_iteration`
(lines 40-66 of ilp_updated.py) on a 0/1 assignment: cardinality
`sum x = n - 1`, one cycle-elimination constraint per basis cycle, forced
selection of every bridge / forced edge present in the graph, and the
degree/branching bounds. `cb` is the cycle basis networkx computes. -/
@[reducible] def ContraintesModele (G : Graphe) (cb : List (List Nat))
    (ponts forcees : List Edge) (x : Edge → Bool) (y : Nat → Bool) : Prop :=
  ((allEdges G).countP x = G.nodes.length - 1) ∧
  (∀ c ∈ cb, (aretesDuCycle c).countP x ≤ (aretesDuCycle c).length - 1) ∧
  (∀ e ∈ ponts ++ forcees, sortPair e ∈ allEdges G → x (sortPair e) = true) ∧
  (∀ v ∈ G.nodes, contrainteDegre G x y v)

/-- Objective of the model (line 38 of ilp_updated.py): sum of the branch
indicators over the high-degree class. -/
def objectif (G : Graphe) (y : Nat → Bool) : Nat :=
  ((V2 G).map (fun v => bn (y v))).sum

/-- What an optimal solver return value is: the list
`[e for e in all_edges if value(x[e]) == 1]` for some 0/1 assignment
satisfying every constraint of the model built with the graph's bridges
and the current forced edges. -/
def SolutionDuModele (G : Graphe) (cb : List (List Nat))
    (forcees sol : List Edge) : Prop :=
  ∃ x : Edge → Bool, ∃ y : Nat → Bool,
    sol = (allEdges G).filter x ∧ ContraintesModele G cb (pontsDe G) forcees x y

/-- Soundness of the abstract solver oracle: whatever edge list it returns
is an optimal assignment of the model for the forced set it was given
(the contract of the external Solver Oracle). -/
def OracleSain (G : Graphe) (cb : List (List Nat))
    (oracle : List Edge → Option (List Edge)) : Prop :=
  ∀ forcees sol, oracle forcees = some sol → SolutionDuModele G cb forcees sol

/-- `score_arete` (lines 115-117 of ilp_updated.py): sum of the two
endpoint degrees in the current candidate tree `T`. -/
def score (T : Graphe) (e : Edge) : Nat :=
  T.degre e.1 + T.degre e.2

/-- Insert `e` before the first element whose key is at least `cle e`, so
that elements with equal keys keep their original relative order (the
stability guarantee of Python `list.sort`). -/
def insereParScore (cle : Edge → Nat) (e : Edge) : List Edge → List Edge
  | [] => [e]
  | f :: reste =>
    if cle e ≤ cle f then e :: f :: reste else f :: insereParScore cle e reste

/-- Stable sort by ascending key: the semantics of
`candidates.sort(key=score_arete)` (Python sort is stable). -/
def triParScore (cle : Edge → Nat) : List Edge → List Edge
  | [] => []
  | e :: reste => insereParScore cle e (triParScore cle reste)

/-- Reconnection candidates (lines 102-108 of ilp_updated.py): original
edges whose endpoints lie in different components, in enumeration order,
normalised by `tuple(sorted(.))`. -/
def candidats (G : Graphe) (comps : List (List Nat)) : List Edge :=
  (G.edges.filter
    (fun e => decide (indiceComp comps e.1 ≠ indiceComp comps e.2))).map sortPair

/-- The repair step (lines 99-130 of ilp_updated.py): compute components
of the disconnected candidate `T`, collect cross-component candidates,
stable-sort them by score, append the first `min(|candidates|, quota)` to
the forced set, and decrement the quota with floor 1. -/
def reparer (G T : Graphe) (forcees : List Edge) (quota : Nat) :
    List Edge × Nat :=
  let comps := composantes T.nodes T.edges
  let cands := candidats G comps
  let forcees' :=
    if cands = [] then forcees
    else forcees ++ (triParScore (score T) cands).take (min cands.length quota)
  let quota' := if 1 < quota then quota - 1 else quota
  (forcees', quota')

/-- Outcome of one pass of the loop body of `resoudre_mbvst`. -/
inductive Pas where
  | echec : Pas
  | succes : Graphe → Pas
  | poursuite : List Edge → Nat → Pas
deriving DecidableEq, Repr

/-- One iteration of the `while True` body (lines 83-130 of
ilp_updated.py): solve; `if not sol_edges` (None or empty) fail; build `T`
on all original nodes; return it if connected; otherwise repair. -/
def pasBoucle (oracle : List Edge → Option (List Edge)) (G : Graphe)
    (forcees : List Edge) (quota : Nat) : Pas :=
  match oracle forcees with
  | none => Pas.echec
  | some sol =>
    if sol = [] then Pas.echec
    else if estConnexe G.nodes sol then Pas.succes ⟨G.nodes, sol⟩
    else
      Pas.poursuite (reparer G ⟨G.nodes, sol⟩ forcees quota).1
        (reparer G ⟨G.nodes, sol⟩ forcees quota).2

/-- Final outcome of `resoudre_mbvst`: `echec` is Python `None`. -/
inductive Resultat where
  | echec : Resultat
  | succes : Graphe → Resultat
deriving DecidableEq, Repr

/-- Fuel-bounded unfolding of the `while True` loop; `none` means the fuel
ran out before the loop decided. -/
def boucle (oracle : List Edge → Option (List Edge)) (G : Graphe) :
    List Edge → Nat → Nat → Option Resultat
  | _, _, 0 => none
  | forcees, quota, fuel + 1 =>
    match pasBoucle oracle G forcees quota with
    | Pas.echec => some Resultat.echec
    | Pas.succes T => some (Resultat.succes T)
    | Pas.poursuite f' q' => boucle oracle G f' q' fuel

/-- `n_quota = max(1, int(n ** 0.5 / 2))` (line 80 of ilp_updated.py);
for nonnegative reals `int(sqrt n / 2)` is the floor, and
`floor (sqrt n / 2) = (Nat.sqrt n) / 2`. -/
def quotaInitial (G : Graphe) : Nat :=
  max 1 (Nat.sqrt G.nodes.length / 2)

/-- `resoudre_mbvst(G)` (lines 76-130 of ilp_updated.py), fuel-bounded. -/
def resoudre_mbvst (oracle : List Edge → Option (List Edge)) (G : Graphe)
    (fuel : Nat) : Option Resultat :=
  boucle oracle G [] (quotaInitial G) fuel

/-- State (forced edges, quota) at the start of iteration `i` of the loop
(0-indexed); `none` once the loop has terminated before iteration `i`. -/
def etats (oracle : List Edge → Option (List Edge)) (G : Graphe) :
    Nat → Option (List Edge × Nat)
  | 0 => some ([], quotaInitial G)
  | i + 1 =>
    match etats oracle G i with
    | none => none
    | some (f, q) =>
      match pasBoucle oracle G f q with
      | Pas.poursuite f' q' => some (f', q')
      | _ => none

/-! Helper lemmas about the stable sort used by the repair step. -/

theorem mem_insereParScore (cle : Edge → Nat) (e a : Edge) (l : List Edge) :
    a ∈ insereParScore cle e l ↔ a = e ∨ a ∈ l := by
  induction l with
  | nil => simp [insereParScore]
  | cons f r ih =>
    by_cases h : cle e ≤ cle f
    · simp [insereParScore, h]
    · simp only [insereParScore, if_neg h, List.mem_cons, ih]
      tauto

theorem insereParScore_pairwise (cle : Edge → Nat) (e : Edge) (l : List Edge)
    (h : l.Pairwise (fun a b => cle a ≤ cle b)) :
    (insereParScore cle e l).Pairwise (fun a b => cle a ≤ cle b) := by
  induction l with
  | nil => simp [insereParScore]
  | cons f r ih =>
    rcases List.pairwise_cons.mp h with ⟨hf, hr⟩
    by_cases hef : cle e ≤ cle f
    · rw [insereParScore, if_pos hef]
      refine List.pairwise_cons.mpr ⟨?_, h⟩
      intro b hb
      rcases List.mem_cons.mp hb with rfl | hb'
      · exact hef
      · exact le_trans hef (hf b hb')
    · rw [insereParScore, if_neg hef]
      refine List.pairwise_cons.mpr ⟨?_, ih hr⟩
      intro b hb
      rcases (mem_insereParScore cle e b r).mp hb with rfl | hb'
      · exact le_of_lt (lt_of_not_le hef)
      · exact hf b hb'

theorem triParScore_pairwise (cle : Edge → Nat) (l : List Edge) :
    (triParScore cle l).Pairwise (fun a b => cle a ≤ cle b) := by
  induction l with
  | nil => simp [triParScore]
  | cons e r ih => exact insereParScore_pairwise cle e (triParScore cle r) ih

theorem filtre_insereParScore (cle : Edge → Nat) (k : Nat) (e : Edge) (l : List Edge) :
    (insereParScore cle e l).filter (fun a => decide (cle a = k)) =
      if cle e = k then e :: l.filter (fun a => decide (cle a = k))
      else l.filter (fun a => decide (cle a = k)) := by
  induction l with
  | nil =>
    by_cases hk : cle e = k <;> simp [insereParScore, List.filter, hk]
  | cons f r ih =>
    simp only [insereParScore]
    by_cases hef : cle e ≤ cle f
    · rw [if_pos hef]
      by_cases hk : cle e = k <;> simp [List.filter_cons, hk]
    · rw [if_neg hef]
      have hfe : cle f < cle e := lt_of_not_le hef
      by_cases hk : cle e = k
      · have hfk : ¬ (cle f = k) := by omega
        simp [List.filter_cons, ih, hk, hfk]
      · by_cases hfk : cle f = k <;> simp [List.filter_cons, ih, hk, hfk]

theorem filtre_triParScore (cle : Edge → Nat) (k : Nat) (l : List Edge) :
    (triParScore cle l).filter (fun a => decide (cle a = k)) =
      l.filter (fun a => decide (cle a = k)) := by
  induction l with
  | nil => rfl
  | cons e r ih =>
    by_cases hk : cle e = k <;>
      simp [triParScore, filtre_insereParScore, List.filter, hk, ih]

/-! Helper lemmas about the loop body and the iteration trace. -/

theorem reparer_fst (G T : Graphe) (f : List Edge) (q : Nat) :
    (reparer G T f q).1 =
      if candidats G (composantes T.nodes T.edges) = [] then f
      else f ++ (triParScore (score T) (candidats G (composantes T.nodes T.edges))).take
        (min (candidats G (composantes T.nodes T.edges)).length q) := rfl

theorem reparer_snd (G T : Graphe) (f : List Edge) (q : Nat) :
    (reparer G T f q).2 = if 1 < q then q - 1 else q := rfl

theorem pasBoucle_poursuite {oracle : List Edge → Option (List Edge)} {G : Graphe}
    {f : List Edge} {q : Nat} {f' : List Edge} {q' : Nat}
    (h : pasBoucle oracle G f q = Pas.poursuite f' q') :
    ∃ sol, oracle f = some sol ∧ sol ≠ [] ∧ estConnexe G.nodes sol = false ∧
      f' = (reparer G ⟨G.nodes, sol⟩ f q).1 ∧ q' = (reparer G ⟨G.nodes, sol⟩ f q).2 := by
  unfold pasBoucle at h
  split at h
  · cases h
  · rename_i sol hO
    split at h
    · cases h
    · rename_i h1
      split at h
      · cases h
      · rename_i h2
        injection h with hf hq
        refine ⟨sol, hO, h1, ?_, hf.symm, hq.symm⟩
        simpa using h2

theorem pasBoucle_succes {oracle : List Edge → Option (List Edge)} {G : Graphe}
    {f : List Edge} {q : Nat} {T : Graphe}
    (h : pasBoucle oracle G f q = Pas.succes T) :
    ∃ sol, oracle f = some sol ∧ sol ≠ [] ∧ estConnexe G.nodes sol = true ∧
      T = ⟨G.nodes, sol⟩ := by
  unfold pasBoucle at h
  split at h
  · cases h
  · rename_i sol hO
    split at h
    · cases h
    · rename_i h1
      split at h
      · rename_i h2
        injection h with hT
        exact ⟨sol, hO, h1, h2, hT.symm⟩
      · cases h

theorem etats_succ {oracle : List Edge → Option (List Edge)} {G : Graphe}
    {i : Nat} {f' : List Edge} {q' : Nat}
    (h : etats oracle G (i + 1) = some (f', q')) :
    ∃ f q, etats oracle G i = some (f, q) ∧
      pasBoucle oracle G f q = Pas.poursuite f' q' := by
  unfold etats at h
  split at h
  · cases h
  · rename_i f q hE
    split at h
    · rename_i a b hP
      injection h with hab
      injection hab with ha hb
      exact ⟨f, q, hE, by rw [hP, ha, hb]⟩
    · cases h

theorem quota_pos (oracle : List Edge → Option (List Edge)) (G : Graphe) :
    ∀ i f q, etats oracle G i = some (f, q) → 1 ≤ q := by
  intro i
  induction i with
  | zero =>
    intro f q h
    unfold etats at h
    injection h with h'
    have : q = quotaInitial G := congrArg Prod.snd h' |>.symm
    rw [this, quotaInitial]
    exact le_max_left 1 _
  | succ n ih =>
    intro f q h
    obtain ⟨f₀, q₀, hE, hP⟩ := etats_succ h
    obtain ⟨sol, _, _, _, _, hq⟩ := pasBoucle_poursuite hP
    have h₀ : 1 ≤ q₀ := ih f₀ q₀ hE
    rw [hq, reparer_snd]
    by_cases h1 : 1 < q₀
    · rw [if_pos h1]; omega
    · rw [if_neg h1]; exact h₀

theorem boucle_etape {oracle : List Edge → Option (List Edge)} {G : Graphe}
    {f : List Edge} {q : Nat} {f' : List Edge} {q' : Nat}
    (hP : pasBoucle oracle G f q = Pas.poursuite f' q') (m : Nat) :
    boucle oracle G f q (m + 1) = boucle oracle G f' q' m := by
  conv_lhs => rw [boucle]
  rw [hP]

theorem boucle_depuis (oracle : List Edge → Option (List Edge)) (G : Graphe) :
    ∀ i f q, etats oracle G i = some (f, q) →
      ∀ m, boucle oracle G f q m = resoudre_mbvst oracle G (i + m) := by
  intro i
  induction i with
  | zero =>
    intro f q h m
    unfold etats at h
    injection h with h'
    have hf : f = [] := congrArg Prod.fst h' |>.symm
    have hq : q = quotaInitial G := congrArg Prod.snd h' |>.symm
    rw [hf, hq, resoudre_mbvst, Nat.zero_add]
  | succ n ih =>
    intro f q h m
    obtain ⟨f₀, q₀, hE, hP⟩ := etats_succ h
    have hrec := ih f₀ q₀ hE (m + 1)
    rw [boucle_etape hP m] at hrec
    rw [hrec]
    congr 1
    omega

theorem boucle_succes_proprietes (oracle : List Edge → Option (List Edge))
    (G : Graphe) (cb : List (List Nat)) (hnd : (allEdges G).Nodup)
    (hsain : OracleSain G cb oracle) :
    ∀ fuel f q T, boucle oracle G f q fuel = some (Resultat.succes T) →
      T.nodes = G.nodes ∧ (∀ e ∈ T.edges, e ∈ allEdges G) ∧ T.edges.Nodup ∧
        T.edges.length = G.nodes.length - 1 ∧
        estConnexe T.nodes T.edges = true := by
  intro fuel
  induction fuel with
  | zero => intro f q T h; cases h
  | succ n ih =>
    intro f q T h
    conv at h => lhs; rw [boucle]
    cases hP : pasBoucle oracle G f q with
    | echec => rw [hP] at h; cases h
    | poursuite f' q' =>
      rw [hP] at h
      exact ih f' q' T h
    | succes T₀ =>
      rw [hP] at h
      injection h with h'
      injection h' with hT
      obtain ⟨sol, hO, _, hconn, hT₀⟩ := pasBoucle_succes hP
      obtain ⟨x, y, hsol, hc⟩ := hsain f sol hO
      subst hT
      subst hT₀
      refine ⟨rfl, ?_, ?_, ?_, ?_⟩
      · intro e he
        rw [hsol] at he
        exact List.mem_of_mem_filter he
      · rw [hsol]
        exact hnd.filter x
      · rw [hsol, ← List.countP_eq_length_filter]
        exact hc.1
      · exact hconn

/-- C1: whenever the solve loop `resoudre_mbvst` returns a tree `T`
(rather than the failure value), `T` carries exactly the vertex set of
`G`, every edge of `T` is an edge of `G`, `T` has exactly `n - 1`
(pairwise distinct) edges, and `T` passes the connectivity check — under
the Solver Oracle contract that every returned assignment satisfies the
model's constraints, and for a simple graph (no duplicate undirected
edges). -/
theorem arbre_final_est_arbre_couvrant (oracle : List Edge → Option (List Edge))
    (G : Graphe) (cb : List (List Nat)) (hnd : (allEdges G).Nodup)
    (hsain : OracleSain G cb oracle) (fuel : Nat) (T : Graphe)
    (h : resoudre_mbvst oracle G fuel = some (Resultat.succes T)) :
    T.nodes = G.nodes ∧ (∀ e ∈ T.edges, e ∈ allEdges G) ∧ T.edges.Nodup ∧
      T.edges.length = G.nodes.length - 1 ∧
      estConnexe T.nodes T.edges = true :=
  boucle_succes_proprietes oracle G cb hnd hsain fuel [] (quotaInitial G) T h

/-- C2: every candidate edge set the oracle produces at any iteration of
the loop (the finally accepted one included) contains at most `|C| - 1`
edges of each cycle `C` of the fundamental cycle basis the model was
built with, provided the returned assignment satisfies the model's
constraints. -/
theorem cycles_jamais_complets (oracle : List Edge → Option (List Edge))
    (G : Graphe) (cb : List (List Nat)) (i : Nat) (f : List Edge) (q : Nat)
    (sol : List Edge) (hE : etats oracle G i = some (f, q))
    (hO : oracle f = some sol) (hsol : SolutionDuModele G cb f sol) :
    ∀ c ∈ cb, (aretesDuCycle c).countP (fun e => decide (e ∈ sol)) ≤
      (aretesDuCycle c).length - 1 := by
  obtain ⟨x, y, hs, hc⟩ := hsol
  intro c hcmem
  have hmono : (aretesDuCycle c).countP (fun e => decide (e ∈ sol)) ≤
      (aretesDuCycle c).countP x := by
    apply List.countP_mono_left
    intro a _ ha
    have ha' : a ∈ sol := of_decide_eq_true ha
    rw [hs] at ha'
    exact (List.mem_filter.mp ha').2
  exact le_trans hmono (hc.2.1 c hcmem)

/-- C6: every bridge of the original graph is selected in the candidate
produced at every iteration of the loop, provided the returned assignment
satisfies the model's constraints (the bridge constraint fixes its
variable to 1 at every iteration). -/
theorem ponts_toujours_presents (oracle : List Edge → Option (List Edge))
    (G : Graphe) (cb : List (List Nat)) (i : Nat) (f : List Edge) (q : Nat)
    (sol : List Edge) (hE : etats oracle G i = some (f, q))
    (hO : oracle f = some sol) (hsol : SolutionDuModele G cb f sol) :
    ∀ e ∈ pontsDe G, sortPair e ∈ sol := by
  obtain ⟨x, y, hs, hc⟩ := hsol
  intro e he
  have heG : e ∈ G.edges := List.mem_of_mem_filter he
  have hmem : sortPair e ∈ allEdges G := List.mem_map_of_mem sortPair heG
  have hx : x (sortPair e) = true :=
    hc.2.2.1 e (List.mem_append_left f he) hmem
  rw [hs]
  exact List.mem_filter.mpr ⟨hmem, hx⟩

/-- C4: the quota starts at `max 1 (floor (sqrt n) / 2)` and, at every
iteration whose candidate was disconnected (exactly the iterations the
trace `etats` continues through), is updated to `max 1 (quota - 1)`; it
is therefore non-increasing and never drops below 1. -/
theorem quota_initial_et_evolution (oracle : List Edge → Option (List Edge))
    (G : Graphe) :
    quotaInitial G = max 1 (Nat.sqrt G.nodes.length / 2) ∧
    ∀ i f q f' q', etats oracle G i = some (f, q) →
      etats oracle G (i + 1) = some (f', q') →
      q' = max 1 (q - 1) ∧ q' ≤ q ∧ 1 ≤ q' := by
  refine ⟨rfl, ?_⟩
  intro i f q f' q' hE hE'
  obtain ⟨f₀, q₀, hE₀, hP⟩ := etats_succ hE'
  rw [hE₀] at hE
  injection hE with hE
  have hf : f₀ = f := congrArg Prod.fst hE
  have hq : q₀ = q := congrArg Prod.snd hE
  rw [hf, hq] at hE₀ hP
  obtain ⟨sol, _, _, _, _, hq'⟩ := pasBoucle_poursuite hP
  have hqpos : 1 ≤ q := quota_pos oracle G i f q hE₀
  rw [hq', reparer_snd]
  by_cases h1 : 1 < q
  · rw [if_pos h1]
    omega
  · rw [if_neg h1]
    omega

/-- C5: across any two consecutive iterations of the loop, the forced
edge set only grows: the new forced list is the old one with a (possibly
empty) block of edges appended, so every previously forced edge stays
forced. -/
theorem forcees_croissantes (oracle : List Edge → Option (List Edge))
    (G : Graphe) :
    ∀ i f q f' q', etats oracle G i = some (f, q) →
      etats oracle G (i + 1) = some (f', q') →
      (∃ ajout, f' = f ++ ajout) ∧ ∀ e ∈ f, e ∈ f' := by
  intro i f q f' q' hE hE'
  obtain ⟨f₀, q₀, hE₀, hP⟩ := etats_succ hE'
  rw [hE₀] at hE
  injection hE with hE
  have hf : f₀ = f := congrArg Prod.fst hE
  have hq : q₀ = q := congrArg Prod.snd hE
  rw [hf, hq] at hE₀ hP
  obtain ⟨sol, _, _, _, hf', _⟩ := pasBoucle_poursuite hP
  rw [reparer_fst] at hf'
  have hext : ∃ ajout, f' = f ++ ajout := by
    by_cases hc : candidats G (composantes G.nodes sol) = []
    · rw [if_pos hc] at hf'
      exact ⟨[], by rw [hf', List.append_nil]⟩
    · rw [if_neg hc] at hf'
      exact ⟨_, hf'⟩
  refine ⟨hext, ?_⟩
  obtain ⟨ajout, haj⟩ := hext
  intro e he
  rw [haj]
  exact List.mem_append_left ajout he

/-- C3: when the connectivity check has produced more than one component
and at least one original edge crosses two components, the repair step of
the scored variant appends to the forced set exactly the first
`min(|candidates|, quota)` elements of the candidate list sorted by
ascending endpoint-degree score; the sort is by non-decreasing score and
is stable (for every score value, the candidates with that score appear
in their original enumeration order). -/
theorem reparation_score_tri_stable (G T : Graphe) (forcees : List Edge)
    (quota : Nat)
    (hcomp : 1 < (composantes T.nodes T.edges).length)
    (hcand : candidats G (composantes T.nodes T.edges) ≠ []) :
    (reparer G T forcees quota).1 =
      forcees ++
        (triParScore (score T) (candidats G (composantes T.nodes T.edges))).take
          (min (candidats G (composantes T.nodes T.edges)).length quota) ∧
    ((triParScore (score T) (candidats G (composantes T.nodes T.edges))).Pairwise
      (fun a b => score T a ≤ score T b)) ∧
    ∀ k, (triParScore (score T) (candidats G (composantes T.nodes T.edges))).filter
        (fun e => decide (score T e = k)) =
      (candidats G (composantes T.nodes T.edges)).filter
        (fun e => decide (score T e = k)) := by
  refine ⟨?_, triParScore_pairwise _ _, fun k => filtre_triParScore _ k _⟩
  rw [reparer_fst, if_neg hcand]

/-- C7: in every model instance, a vertex of original degree above 2 gets
the degree bound `2 + (deg v - 2) * y v` and a vertex of degree at most 2
gets the bound `2` (the third branch of the source is dead code because
the two degree classes cover all vertices), and the minimised objective
is the sum of the branch indicators over the high-degree vertices. -/
theorem contraintes_degre_et_objectif (G : Graphe) (x : Edge → Bool)
    (y : Nat → Bool) (v : Nat) (hv : v ∈ G.nodes) :
    (2 < G.degre v →
      (contrainteDegre G x y v ↔
        ((allEdges G).filter (fun e => decide (v = e.1 ∨ v = e.2))).countP x ≤
          2 + (G.degre v - 2) * bn (y v))) ∧
    (G.degre v ≤ 2 →
      (contrainteDegre G x y v ↔
        ((allEdges G).filter (fun e => decide (v = e.1 ∨ v = e.2))).countP x ≤ 2)) ∧
    objectif G y =
      ((G.nodes.filter (fun u => decide (2 < G.degre u))).map
        (fun u => bn (y u))).sum := by
  refine ⟨?_, ?_, ?_⟩
  · intro h2
    have hm : v ∈ V2 G := List.mem_filter.mpr ⟨hv, by simpa [not_le] using h2⟩
    simp only [contrainteDegre]
    rw [if_pos hm]
  · intro h2
    have hm2 : v ∉ V2 G := by
      intro hmem
      have hd := (List.mem_filter.mp hmem).2
      simp only [decide_eq_true_eq, not_le] at hd
      omega
    have hm1 : v ∈ V01 G := List.mem_filter.mpr ⟨hv, by simpa using h2⟩
    simp only [contrainteDegre]
    rw [if_neg hm2, if_pos hm1]
  · have hV : V2 G = G.nodes.filter (fun u => decide (2 < G.degre u)) :=
      List.filter_congr (fun a _ => by simp [not_le])
    rw [objectif, hV]

/-- C8: as soon as the Solver Oracle reports infeasibility (returns no
assignment) at some iteration the trace has reached, the whole solve
returns the failure value, whatever fuel remains. -/
theorem infaisable_renvoie_echec (oracle : List Edge → Option (List Edge))
    (G : Graphe) (i : Nat) (f : List Edge) (q : Nat) (fuel : Nat)
    (hE : etats oracle G i = some (f, q)) (hO : oracle f = none) :
    resoudre_mbvst oracle G (i + (fuel + 1)) = some Resultat.echec := by
  rw [← boucle_depuis oracle G i f q hE (fuel + 1)]
  conv_lhs => rw [boucle]
  have hP : pasBoucle oracle G f q = Pas.echec := by
    unfold pasBoucle
    rw [hO]
  rw [hP]

/-- C9: a bridge or forced edge whose normalised pair is not an edge of
the graph contributes no constraint at all: the model built with it is
propositionally the same as the model built without it (the membership
guard drops it silently, with no error). -/
theorem arete_forcee_absente_ignoree (G : Graphe) (cb : List (List Nat))
    (ponts forcees : List Edge) (x : Edge → Bool) (y : Nat → Bool)
    (e : Edge) (he : sortPair e ∉ allEdges G) :
    (ContraintesModele G cb (e :: ponts) forcees x y ↔
      ContraintesModele G cb ponts forcees x y) ∧
    (ContraintesModele G cb ponts (e :: forcees) x y ↔
      ContraintesModele G cb ponts forcees x y) := by
  constructor
  · unfold ContraintesModele
    refine and_congr Iff.rfl (and_congr Iff.rfl (and_congr ?_ Iff.rfl))
    constructor
    · intro h a ha hm
      exact h a (by simp only [List.mem_append, List.mem_cons] at ha ⊢; tauto) hm
    · intro h a ha hm
      rcases List.mem_append.mp ha with hp | hf
      · rcases List.mem_cons.mp hp with rfl | hp'
        · exact absurd hm he
        · exact h a (List.mem_append_left _ hp') hm
      · exact h a (List.mem_append_right _ hf) hm
  · unfold ContraintesModele
    refine and_congr Iff.rfl (and_congr Iff.rfl (and_congr ?_ Iff.rfl))
    constructor
    · intro h a ha hm
      exact h a (by simp only [List.mem_append, List.mem_cons] at ha ⊢; tauto) hm
    · intro h a ha hm
      rcases List.mem_append.mp ha with hp | hf
      · exact h a (List.mem_append_left _ hp) hm
      · rcases List.mem_cons.mp hf with rfl | hf'
        · exact absurd hm he
        · exact h a (List.mem_append_right _ hf') hm

/-- C10: when the oracle reports optimal but selects no edge at all, the
`if not sol_edges` guard treats it exactly like infeasibility: the solve
returns the failure value, not an empty tree; moreover an empty selection
can satisfy the model's cardinality constraint only when the graph has at
most one vertex. -/
theorem solution_vide_renvoie_echec (oracle : List Edge → Option (List Edge))
    (G : Graphe) (cb : List (List Nat)) (i : Nat) (f : List Edge) (q : Nat)
    (fuel : Nat) (hE : etats oracle G i = some (f, q))
    (hO : oracle f = some []) :
    resoudre_mbvst oracle G (i + (fuel + 1)) = some Resultat.echec ∧
      (SolutionDuModele G cb f [] → G.nodes.length ≤ 1) := by
  constructor
  · rw [← boucle_depuis oracle G i f q hE (fuel + 1)]
    conv_lhs => rw [boucle]
    have hP : pasBoucle oracle G f q = Pas.echec := by
      unfold pasBoucle
      rw [hO]
      rfl
    rw [hP]
  · rintro ⟨x, y, hsol, hc⟩
    have hcp : (allEdges G).countP x = 0 := by
      rw [List.countP_eq_length_filter, ← hsol]
      rfl
    have hcard := hc.1
    omega

/-! Concrete instances used to witness the theorems: a path graph, a
triangle, a four-cycle with a disconnected candidate, a star, and a few
fixed oracles. -/

def GTest : Graphe := ⟨[1, 2, 3], [(1, 2), (2, 3)]⟩

def GTri : Graphe := ⟨[1, 2, 3], [(1, 2), (2, 3), (1, 3)]⟩

def GQuad : Graphe := ⟨[1, 2, 3, 4], [(1, 2), (3, 4), (2, 3), (1, 4)]⟩

def TQuad : Graphe := ⟨[1, 2, 3, 4], [(1, 2), (3, 4)]⟩

def GEtoile : Graphe := ⟨[1, 2, 3, 4], [(1, 2), (1, 3), (1, 4)]⟩

def GArbre : Graphe := ⟨[1, 2, 3], [(1, 2), (2, 3)]⟩

def oracleDeuxAretes : List Edge → Option (List Edge) :=
  fun _ => some [(1, 2), (2, 3)]

def oracleQuad : List Edge → Option (List Edge) :=
  fun _ => some [(1, 2), (3, 4)]

def oracleEchec : List Edge → Option (List Edge) := fun _ => none

def oracleVide : List Edge → Option (List Edge) := fun _ => some []

theorem oracleDeuxAretes_sain : OracleSain GTest [] oracleDeuxAretes := by
  intro f sol h
  injection h with h'
  subst h'
  exact ⟨fun _ => true, fun _ => false, by decide, by decide, by simp,
    fun e he hm => rfl, by decide⟩

theorem sqrt_trois : Nat.sqrt 3 = 1 :=
  (Nat.eq_sqrt.mpr (by omega)).symm

theorem sqrt_quatre : Nat.sqrt 4 = 2 :=
  (Nat.eq_sqrt.mpr (by omega)).symm

theorem quotaInitial_GTest : quotaInitial GTest = 1 := by
  rw [quotaInitial, show GTest.nodes.length = 3 from rfl, sqrt_trois]
  decide

theorem quotaInitial_GTri : quotaInitial GTri = 1 := by
  rw [quotaInitial, show GTri.nodes.length = 3 from rfl, sqrt_trois]
  decide

theorem quotaInitial_GQuad : quotaInitial GQuad = 1 := by
  rw [quotaInitial, show GQuad.nodes.length = 4 from rfl, sqrt_quatre]
  decide

theorem etats_zero (oracle : List Edge → Option (List Edge)) (G : Graphe) :
    etats oracle G 0 = some ([], quotaInitial G) := rfl

theorem etats_succ_of (oracle : List Edge → Option (List Edge)) (G : Graphe)
    (i : Nat) (f : List Edge) (q : Nat) (hE : etats oracle G i = some (f, q)) :
    etats oracle G (i + 1) =
      (match pasBoucle oracle G f q with
        | Pas.poursuite f' q' => some (f', q')
        | _ => none) := by
  conv_lhs => rw [etats]
  rw [hE]

theorem arbre_final_temoin :
    resoudre_mbvst oracleDeuxAretes GTest 1 = some (Resultat.succes GArbre) ∧
      (GArbre.nodes = GTest.nodes ∧ (∀ e ∈ GArbre.edges, e ∈ allEdges GTest) ∧
        GArbre.edges.Nodup ∧ GArbre.edges.length = GTest.nodes.length - 1 ∧
        estConnexe GArbre.nodes GArbre.edges = true) := by
  have hres : resoudre_mbvst oracleDeuxAretes GTest 1 =
      some (Resultat.succes GArbre) := by
    rw [resoudre_mbvst, quotaInitial_GTest]
    rfl
  exact ⟨hres, arbre_final_est_arbre_couvrant oracleDeuxAretes GTest []
    (by decide) oracleDeuxAretes_sain 1 GArbre hres⟩

theorem cycles_temoin :
    etats oracleDeuxAretes GTri 0 = some ([], 1) ∧
    oracleDeuxAretes [] = some [(1, 2), (2, 3)] ∧
    ∀ c ∈ [[1, 2, 3]], (aretesDuCycle c).countP
        (fun e => decide (e ∈ [((1 : Nat), (2 : Nat)), (2, 3)])) ≤
      (aretesDuCycle c).length - 1 := by
  have h0 : etats oracleDeuxAretes GTri 0 = some ([], 1) := by
    rw [etats_zero, quotaInitial_GTri]
  exact ⟨h0, rfl, cycles_jamais_complets oracleDeuxAretes GTri [[1, 2, 3]] 0 [] 1
    [(1, 2), (2, 3)] h0 rfl
    ⟨fun e => decide (e ∈ [((1 : Nat), (2 : Nat)), (2, 3)]), fun _ => false,
      by decide, by decide⟩⟩

theorem ponts_temoin :
    etats oracleDeuxAretes GTest 0 = some ([], 1) ∧
    oracleDeuxAretes [] = some [(1, 2), (2, 3)] ∧
    ∀ e ∈ pontsDe GTest, sortPair e ∈ [((1 : Nat), (2 : Nat)), (2, 3)] := by
  have h0 : etats oracleDeuxAretes GTest 0 = some ([], 1) := by
    rw [etats_zero, quotaInitial_GTest]
  exact ⟨h0, rfl, ponts_toujours_presents oracleDeuxAretes GTest [] 0 [] 1
    [(1, 2), (2, 3)] h0 rfl
    ⟨fun _ => true, fun _ => false, by decide, by decide⟩⟩

theorem reparation_temoin :
    1 < (composantes TQuad.nodes TQuad.edges).length ∧
    candidats GQuad (composantes TQuad.nodes TQuad.edges) ≠ [] ∧
    ((reparer GQuad TQuad [] 1).1 =
      [] ++
        (triParScore (score TQuad)
          (candidats GQuad (composantes TQuad.nodes TQuad.edges))).take
          (min (candidats GQuad (composantes TQuad.nodes TQuad.edges)).length 1) ∧
     ((triParScore (score TQuad)
        (candidats GQuad (composantes TQuad.nodes TQuad.edges))).Pairwise
       (fun a b => score TQuad a ≤ score TQuad b)) ∧
     ∀ k, (triParScore (score TQuad)
          (candidats GQuad (composantes TQuad.nodes TQuad.edges))).filter
         (fun e => decide (score TQuad e = k)) =
       (candidats GQuad (composantes TQuad.nodes TQuad.edges)).filter
         (fun e => decide (score TQuad e = k))) :=
  ⟨by decide, by decide,
    reparation_score_tri_stable GQuad TQuad [] 1 (by decide) (by decide)⟩

theorem quota_temoin :
    etats oracleQuad GQuad 0 = some ([], 1) ∧
    etats oracleQuad GQuad 1 = some ([(2, 3)], 1) ∧
    (1 = max 1 (1 - 1) ∧ 1 ≤ 1 ∧ 1 ≤ 1) := by
  have h0 : etats oracleQuad GQuad 0 = some ([], 1) := by
    rw [etats_zero, quotaInitial_GQuad]
  have h1 : etats oracleQuad GQuad 1 = some ([(2, 3)], 1) := by
    rw [etats_succ_of oracleQuad GQuad 0 [] 1 h0]
    decide
  exact ⟨h0, h1,
    (quota_initial_et_evolution oracleQuad GQuad).2 0 [] 1 [(2, 3)] 1 h0 h1⟩

theorem forcees_temoin :
    etats oracleQuad GQuad 0 = some ([], 1) ∧
    etats oracleQuad GQuad 1 = some ([(2, 3)], 1) ∧
    ((∃ ajout, [((2 : Nat), (3 : Nat))] = [] ++ ajout) ∧
      ∀ e ∈ ([] : List Edge), e ∈ [((2 : Nat), (3 : Nat))]) := by
  have h0 : etats oracleQuad GQuad 0 = some ([], 1) := by
    rw [etats_zero, quotaInitial_GQuad]
  have h1 : etats oracleQuad GQuad 1 = some ([(2, 3)], 1) := by
    rw [etats_succ_of oracleQuad GQuad 0 [] 1 h0]
    decide
  exact ⟨h0, h1, forcees_croissantes oracleQuad GQuad 0 [] 1 [(2, 3)] 1 h0 h1⟩

theorem degre_objectif_temoin :
    1 ∈ GEtoile.nodes ∧
    ((2 < GEtoile.degre 1 →
      (contrainteDegre GEtoile (fun _ => true) (fun _ => true) 1 ↔
        ((allEdges GEtoile).filter
          (fun e => decide (1 = e.1 ∨ 1 = e.2))).countP (fun _ => true) ≤
          2 + (GEtoile.degre 1 - 2) * bn true)) ∧
    (GEtoile.degre 1 ≤ 2 →
      (contrainteDegre GEtoile (fun _ => true) (fun _ => true) 1 ↔
        ((allEdges GEtoile).filter
          (fun e => decide (1 = e.1 ∨ 1 = e.2))).countP (fun _ => true) ≤ 2)) ∧
    objectif GEtoile (fun _ => true) =
      ((GEtoile.nodes.filter (fun u => decide (2 < GEtoile.degre u))).map
        (fun u => bn true)).sum) :=
  ⟨by decide, contraintes_degre_et_objectif GEtoile (fun _ => true)
    (fun _ => true) 1 (by decide)⟩

theorem infaisable_temoin :
    etats oracleEchec GTest 0 = some ([], 1) ∧ oracleEchec [] = none ∧
    resoudre_mbvst oracleEchec GTest (0 + (0 + 1)) = some Resultat.echec := by
  have h0 : etats oracleEchec GTest 0 = some ([], 1) := by
    rw [etats_zero, quotaInitial_GTest]
  exact ⟨h0, rfl, infaisable_renvoie_echec oracleEchec GTest 0 [] 1 0 h0 rfl⟩

theorem absente_temoin :
    sortPair (5, 6) ∉ allEdges GTest ∧
    ((ContraintesModele GTest [] [(5, 6)] [] (fun _ => true) (fun _ => true) ↔
      ContraintesModele GTest [] [] [] (fun _ => true) (fun _ => true)) ∧
    (ContraintesModele GTest [] [] [(5, 6)] (fun _ => true) (fun _ => true) ↔
      ContraintesModele GTest [] [] [] (fun _ => true) (fun _ => true))) :=
  ⟨by decide, arete_forcee_absente_ignoree GTest [] [] [] (fun _ => true)
    (fun _ => true) (5, 6) (by decide)⟩

theorem vide_temoin :
    etats oracleVide GTest 0 = some ([], 1) ∧ oracleVide [] = some [] ∧
    (resoudre_mbvst oracleVide GTest (0 + (0 + 1)) = some Resultat.echec ∧
      (SolutionDuModele GTest [] [] [] → GTest.nodes.length ≤ 1)) := by
  have h0 : etats oracleVide GTest 0 = some ([], 1) := by
    rw [etats_zero, quotaInitial_GTest]
  exact ⟨h0, rfl, solution_vide_renvoie_echec oracleVide GTest [] 0 [] 1 0 h0 rfl⟩

end MBVST
